import Mathlib

/-!
Verification of the deduplication-and-expansion stage of the Amass
enumeration pipeline (`enum/names.go`): the FQDN deduplication filter
(`fqdnFilter`), the subdomain extraction task (`subdomainTask`), its
occurrence counter (`timesManager`), the output drain
(`OutputRequests`) and the delayed duplicate-reconciliation scan
(`processDupNames`).

The Go code is embedded shallowly: the queue primitives become Lean
lists, the bloom filter becomes an exact set of string keys (the spec
treats it as an opaque insert-or-check set), the counter map becomes a
`String → Option Nat` function, and the goroutine-serialized operations
become pure state-passing functions.
-/

namespace AmassEnum

/-! ## Go string primitives

`strings.Split(s, ".")`, `strings.Join(l, ".")` and
`strings.TrimSpace` are embedded directly as list-of-character
functions so that every definition evaluates by kernel reduction. -/

/-- Helper for `splitDot`: `cur` holds the characters of the current
label in reverse. -/
def splitDotAux (cur : List Char) : List Char → List (List Char)
  | [] => [cur.reverse]
  | c :: rest =>
    if c = '.' then cur.reverse :: splitDotAux [] rest
    else splitDotAux (c :: cur) rest

/-- Go `strings.Split(s, ".")`: the (never empty) list of dot-separated
labels of `s`. -/
def splitDot (s : String) : List String :=
  (splitDotAux [] s.data).map (fun l => ⟨l⟩)

/-- Go `strings.Join(l, ".")`. -/
def joinDot : List String → String
  | [] => ""
  | [s] => s
  | s :: rest => s ++ "." ++ joinDot rest

/-- Whitespace as trimmed by Go `strings.TrimSpace` (the ASCII cases;
DNS names never carry the Unicode ones). -/
def isSpaceChar (c : Char) : Bool :=
  c = ' ' ∨ c = '\t' ∨ c = '\n' ∨ c = '\r'

/-- Go `strings.TrimSpace`. -/
def trimSpace (s : String) : String :=
  ⟨((s.data.dropWhile isSpaceChar).reverse.dropWhile isSpaceChar).reverse⟩

/-- Modelled from the spec: an opaque DNS answer carried on the records
(`requests.DNSAnswer` is outside the shown source; only copied, never
inspected, by this stage). -/
structure DNSAnswer where
  data : String
deriving DecidableEq, Repr

/-- `requests.DNSRequest`: a freshly discovered name record.  Fields used
by this stage: name, domain, answer records, tag, source. -/
structure DNSRequest where
  Name : String
  Domain : String
  Records : List DNSAnswer
  Tag : String
  Source : String
deriving DecidableEq, Repr

/-- `requests.ResolvedRequest` as built by `subdomainTask.Process`. -/
structure ResolvedRequest where
  Name : String
  Domain : String
  Records : List DNSAnswer
  Tag : String
  Source : String
deriving DecidableEq, Repr

/-- `requests.SubdomainRequest` as built by
`subdomainTask.checkForSubdomains`. -/
structure SubdomainRequest where
  Name : String
  Domain : String
  Tag : String
  Source : String
  Times : Nat
deriving DecidableEq, Repr

/-- An element of `subdomainTask.queue`.  The Go queue holds
`interface{}` values; everything that is neither a `*ResolvedRequest`
nor a `*SubdomainRequest` is represented by `other`. -/
inductive OutElem where
  | resolved (r : ResolvedRequest)
  | subreq (s : SubdomainRequest)
  | other
deriving DecidableEq, Repr

/-- Does the queue element hold a `SubdomainRequest`? -/
def OutElem.isSub : OutElem → Bool
  | .subreq _ => true
  | _ => false

/-- Does the queue element hold a `ResolvedRequest`? -/
def OutElem.isRes : OutElem → Bool
  | .resolved _ => true
  | _ => false

/-! ## The occurrence counter (`timesManager` / `timesForSubdomain`)

`timesManager` owns `subdomains : map[string]int`; every request is
served by the single worker, so successive requests act sequentially on
the map.  One request is `timesQuery`; a run of requests is
`runTimes`. -/

/-- One `timesReq` served by `subdomainTask.timesManager`: look the
subdomain up, increment (or initialize to 1), store, and reply with the
new value. -/
def timesQuery (m : String → Option Nat) (s : String) : (String → Option Nat) × Nat :=
  let times : Nat :=
    match m s with
    | some t => t + 1
    | none => 1
  (fun x => if x = s then some times else m x, times)

/-- A sequence of `timesForSubdomain` calls served in order, returning
the final map and the list of replies. -/
def runTimes (m : String → Option Nat) : List String → (String → Option Nat) × List Nat
  | [] => (m, [])
  | s :: rest =>
    let p := timesQuery m s
    let q := runTimes p.1 rest
    (q.1, p.2 :: q.2)

/-! ## The output drain (`subdomainTask.OutputRequests`)

The queue is a list of `OutElem`; the registered data sources only
receive dispatches, so they are represented by their number `srcs`; a
dispatch log records one entry per (record, source) pair.  The labeled
`continue loop` of the Go `switch` re-enters the outer loop, skipping
the current element. -/

/-- The labeled drain loop of `OutputRequests`: `drainGo srcs num q count log`
processes queue `q` with running dispatch count `count` and dispatch
log `log`, returning the final count, the part of the queue left
unconsumed, and the final log.  An `other` element hits the `default:`
case of the `switch` on the first source iteration and `continue loop`
moves on to the next element (when there is no source at all the inner
loop body never runs and control falls through to the capacity check). -/
def drainGo (srcs : Nat) (num : Int) : List OutElem → Nat → List OutElem →
    Nat × List OutElem × List OutElem
  | [], count, log => (count, [], log)
  | e :: rest, count, log =>
    if e = OutElem.other ∧ 0 < srcs then
      drainGo srcs num rest count log
    else
      let count' := count + (if e = OutElem.other then 0 else srcs)
      let log' := log ++ (if e = OutElem.other then [] else List.replicate srcs e)
      if num ≤ (count' : Int) then (count', rest, log')
      else drainGo srcs num rest count' log'

/-- `subdomainTask.OutputRequests(num)`: returns the dispatch count, the
records still queued afterwards, and the dispatch log (one entry per
(record, source) delivery). -/
def outputRequests (srcs : Nat) (num : Int) (q : List OutElem) :
    Nat × List OutElem × List OutElem :=
  if num ≤ 0 then (0, q, [])
  else drainGo srcs num q 0 []

/-! ## The subdomain task (`subdomainTask.Process` / `checkForSubdomains`)

External collaborators become function parameters: `inScope` is
`Config.IsDomainInScope`, `isCNAME` is `Graph.IsCNAMENode`.  The
occurrence-counter state is threaded explicitly (the Go code reaches it
through `timesForSubdomain`).  Appending to `r.queue` and the
`go pipeline.SendData` calls are collected in a result record. -/

/-- The visible effects of one `subdomainTask.Process` call: elements
appended to `r.queue`, `SubdomainRequest`s resubmitted to the pipeline
root via `pipeline.SendData`, and the returned `pipeline.Data`. -/
structure TaskResult where
  queued : List OutElem
  resub : List SubdomainRequest
  returned : Option DNSRequest
deriving DecidableEq, Repr

/-- The candidate-derivation guards of `checkForSubdomains`: split the
name into labels, require at least two, require the candidate to keep
at least as many labels as the root domain, and return the joined and
trimmed remainder. -/
def deriveCandidate (name domain : String) : Option String :=
  let labels := splitDot name
  let num := labels.length
  if num < 2 then none
  else if num - 1 < (splitDot domain).length then none
  else some (trimSpace (joinDot labels.tail))

/-- `subdomainTask.checkForSubdomains`: derive the candidate, drop
CNAME nodes, fetch the occurrence count, enqueue the
`SubdomainRequest`, and resubmit it to the pipeline root exactly when
it differs from the root domain and this is its first occurrence. -/
def checkForSubdomains (isCNAME : String → Bool) (m : String → Option Nat)
    (req : DNSRequest) : (String → Option Nat) × TaskResult :=
  match deriveCandidate req.Name req.Domain with
  | none => (m, ⟨[], [], some req⟩)
  | some sub =>
    if isCNAME sub then (m, ⟨[], [], some req⟩)
    else
      let p := timesQuery m sub
      let subreq : SubdomainRequest := ⟨sub, req.Domain, req.Tag, req.Source, p.2⟩
      (p.1, ⟨[OutElem.subreq subreq],
             if sub ≠ req.Domain ∧ p.2 = 1 then [subreq] else [],
             some req⟩)

/-- `subdomainTask.Process`: drop `nil` or out-of-scope records, drop
service pseudo-hosts (`_tcp`/`_udp`/`_tls` labels), enqueue the
`ResolvedRequest` copy, then run `checkForSubdomains`. -/
def subdomainProcess (inScope : String → Bool) (isCNAME : String → Bool)
    (m : String → Option Nat) (req : Option DNSRequest) :
    (String → Option Nat) × TaskResult :=
  match req with
  | none => (m, ⟨[], [], none⟩)
  | some req =>
    if ¬ inScope req.Name then (m, ⟨[], [], none⟩)
    else if (splitDot req.Name).any (fun label =>
        label = "_tcp" ∨ label = "_udp" ∨ label = "_tls") then
      (m, ⟨[], [], none⟩)
    else
      let rr : ResolvedRequest := ⟨req.Name, req.Domain, req.Records, req.Tag, req.Source⟩
      let p := checkForSubdomains isCNAME m req
      (p.1, ⟨OutElem.resolved rr :: p.2.queued, p.2.resub, p.2.returned⟩)

/-! ## The deduplication filter (`fqdnFilter.checkFilter`)

The bloom filter is represented by the exact set (list) of its string
keys — the spec consumes it as an opaque insert-or-check set.
`requests.DNSRequest.Valid` and `requests.TrustedTag` live outside the
shown source and are taken as predicate parameters (modelled from the
spec: validity and the trusted/untrusted tier of a tag).  The maximum
filter size `filterMaxSize` is likewise a parameter (modelled from the
spec: the configured maximum before the filter is swapped out). -/

/-- The lock-protected state of `fqdnFilter`: the key set of the bloom
filter, the accepted-item count, and the duplicate-reconciliation
queue. -/
structure FilterState where
  filter : List String
  count : Nat
  dupQ : List DNSRequest
deriving DecidableEq, Repr

/-- Go `strconv.FormatBool`. -/
def boolKey (b : Bool) : String := if b then "true" else "false"

/-- `fqdnFilter.checkFilter`: validity check, bloom-filter reset at
capacity, trusted-tier arbitration, insert-or-check on
`Name + FormatBool(trusted)`, duplicate enqueueing, and acceptance. -/
def checkFilter (maxSize : Nat) (valid : DNSRequest → Bool)
    (trustedTag : String → Bool) (st : FilterState) (req : DNSRequest) :
    FilterState × Option DNSRequest :=
  if ¬ valid req then (st, none)
  else
    let st1 := if maxSize ≤ st.count then { st with count := 0, filter := [] } else st
    let trusted := trustedTag req.Tag
    if ¬ trusted ∧ (req.Name ++ boolKey true) ∈ st1.filter then
      ({ st1 with dupQ := st1.dupQ ++ [req] }, none)
    else if (req.Name ++ boolKey trusted) ∈ st1.filter then
      ({ st1 with dupQ := st1.dupQ ++ [req] }, none)
    else
      ({ st1 with filter := (req.Name ++ boolKey trusted) :: st1.filter,
                  count := st1.count + 1 }, some req)

/-- A sequence of `checkFilter` calls (the lock linearizes concurrent
`Process` calls into such a sequence), returning the final state and
the per-call outputs (`some` = accepted, `none` = dropped). -/
def runFilter (maxSize : Nat) (valid : DNSRequest → Bool) (trustedTag : String → Bool)
    (st : FilterState) : List DNSRequest → FilterState × List (Option DNSRequest)
  | [] => (st, [])
  | r :: rs =>
    let p := checkFilter maxSize valid trustedTag st r
    let q := runFilter maxSize valid trustedTag p.1 rs
    (q.1, p.2 :: q.2)

/-- The state seen by each call of a `runFilter` sequence (the state
*before* the call). -/
def filterTrace (maxSize : Nat) (valid : DNSRequest → Bool) (trustedTag : String → Bool)
    (st : FilterState) : List DNSRequest → List FilterState
  | [] => []
  | r :: rs => st :: filterTrace maxSize valid trustedTag
      (checkFilter maxSize valid trustedTag st r).1 rs

/-- The filter holds the key for name `N` at trust bit `b`. -/
def hasKey (st : FilterState) (N : String) (b : Bool) : Prop :=
  (N ++ boolKey b) ∈ st.filter

instance (st : FilterState) (N : String) (b : Bool) : Decidable (hasKey st N b) :=
  inferInstanceAs (Decidable ((N ++ boolKey b) ∈ st.filter))

/-- How many of the two trust-bit keys for name `N` the filter holds. -/
def numBits (st : FilterState) (N : String) : Nat :=
  (if (N ++ boolKey false) ∈ st.filter then 1 else 0) +
    (if (N ++ boolKey true) ∈ st.filter then 1 else 0)

/-- Is this `runFilter` output an acceptance of a record named `N`? -/
def isAcceptOf (N : String) : Option DNSRequest → Bool
  | some q => q.Name == N
  | none => false

/-- The number of records named `N` accepted during a run. -/
def acceptCount (N : String) (outs : List (Option DNSRequest)) : Nat :=
  outs.countP (isAcceptOf N)

/-! ## The reconciliation scan (`fqdnFilter.processDupNames`)

One tick of the 5-second timer: walk `pending` from the head, stop at
the first entry younger than the 10-minute grace period, insert an
`InsertFQDN` edge for every consumed entry whose `ReadNode` lookup
succeeds, and drop the consumed prefix.  Time is modelled as `Nat`
seconds; the graph lookup is the predicate parameter `hasNode`. -/

/-- The grace period of `processDupNames` (10 minutes), in seconds. -/
def gracePeriod : Nat := 600

/-- The `altsource` snapshot buffered by `processDupNames`. -/
structure Altsource where
  Name : String
  Source : String
  Tag : String
  Timestamp : Nat
deriving DecidableEq, Repr

/-- The `count` computed by one timer tick of `processDupNames`: how
many leading entries are past their grace period (the loop `break`s at
the first one that is not). -/
def scanConsume (now : Nat) : List Altsource → Nat
  | [] => 0
  | a :: rest =>
    if now < a.Timestamp + gracePeriod then 0
    else scanConsume now rest + 1

/-- The entries for which one timer tick calls `Graph.InsertFQDN`: the
consumed prefix filtered by a successful `Graph.ReadNode` lookup. -/
def scanInserts (hasNode : String → Bool) (now : Nat) : List Altsource → List Altsource
  | [] => []
  | a :: rest =>
    if now < a.Timestamp + gracePeriod then []
    else (if hasNode a.Name then [a] else []) ++ scanInserts hasNode now rest

/-- One timer tick of `processDupNames`: the inserted entries and the
remaining buffer (`pending = pending[count:]`). -/
def scanTick (hasNode : String → Bool) (now : Nat) (pending : List Altsource) :
    List Altsource × List Altsource :=
  (scanInserts hasNode now pending, pending.drop (scanConsume now pending))

/-! ## Lemmas about the output drain -/

/-- The running dispatch count stays below `num + srcs` throughout the
drain loop: one recognized record adds at most `srcs` deliveries after
the last capacity check. -/
theorem drainGo_count_lt (srcs : Nat) (num : Int) :
    ∀ (q : List OutElem) (count : Nat) (log : List OutElem),
      (count : Int) < num → ((drainGo srcs num q count log).1 : Int) < num + srcs := by
  intro q
  induction q with
  | nil =>
    intro count log h
    simp only [drainGo]
    omega
  | cons e rest ih =>
    intro count log h
    simp only [drainGo]
    split
    · exact ih count log h
    · split <;> split
      · omega
      · exact ih _ _ (by omega)
      · omega
      · exact ih _ _ (by omega)

/-- With no registered source, the drain loop consumes the whole queue
without dispatching or logging anything. -/
theorem drainGo_no_sources (num : Int) :
    ∀ (q : List OutElem) (count : Nat) (log : List OutElem),
      (count : Int) < num → drainGo 0 num q count log = (count, [], log) := by
  intro q
  induction q with
  | nil =>
    intro count log h
    simp [drainGo]
  | cons e rest ih =>
    intro count log h
    simp only [drainGo, lt_irrefl, and_false, if_false, ite_self, Nat.add_zero,
      List.replicate_zero, List.append_nil]
    split
    · omega
    · exact ih count log h

/-! ## Claim C1 -/

/-- C1 counterexample: with one registered source the drain pass of
`OutputRequests` does *not* stop at an unrecognized queued element.
For queue `[other, resolved]` and capacity 10 the pass returns a
dispatched count of 1 (the claim demands 0) and the *later* resolved
record appears in the dispatch log. -/
theorem c1_counterexample :
    outputRequests 1 10 [OutElem.other, OutElem.resolved ⟨"a", "d", [], "t", "s"⟩]
      = (1, [], [OutElem.resolved ⟨"a", "d", [], "t", "s"⟩]) ∧
    OutElem.resolved ⟨"a", "d", [], "t", "s"⟩
      ∈ (outputRequests 1 10 [OutElem.other, OutElem.resolved ⟨"a", "d", [], "t", "s"⟩]).2.2 := by
  decide

/-- C1 (amended): when the drain loop of `OutputRequests` pulls a
queued element of an unrecognized type, the labeled `continue loop`
skips just that element — it is dispatched to no source and not counted
— and the pass continues with the remaining queue exactly as if the
element had not been there. -/
theorem c1_unknown_element_skipped (srcs : Nat) (num : Int) (rest : List OutElem)
    (count : Nat) (log : List OutElem) (h : 0 < srcs) :
    drainGo srcs num (OutElem.other :: rest) count log = drainGo srcs num rest count log := by
  simp [drainGo, h]

/-- C1 witness: the amended theorem applied at a concrete queue. -/
theorem c1_unknown_element_skipped_witness :
    drainGo 1 10 [OutElem.other, OutElem.resolved ⟨"a", "d", [], "t", "s"⟩] 0 []
      = drainGo 1 10 [OutElem.resolved ⟨"a", "d", [], "t", "s"⟩] 0 [] :=
  c1_unknown_element_skipped 1 10 [OutElem.resolved ⟨"a", "d", [], "t", "s"⟩] 0 []
    (by decide)

/-! ## Claim C4 -/

/-- C4 counterexample: with two registered sources and capacity 1, one
queued resolved record yields a dispatched count of 2 — the capacity
check runs only after the record has been delivered to every source, so
the returned count exceeds the caller-supplied capacity. -/
theorem c4_counterexample :
    (outputRequests 2 1 [OutElem.resolved ⟨"a", "d", [], "t", "s"⟩]).1 = 2 ∧
    ¬ (outputRequests 2 1 [OutElem.resolved ⟨"a", "d", [], "t", "s"⟩]).1 ≤ 1 := by
  decide

/-- C4 (amended): for capacity `num ≤ 0` the drain of `OutputRequests`
is a no-op returning 0 and leaving the queue unchanged; for `num > 0`
the returned dispatched count is bounded by `num + srcs - 1` (strictly
below `num + srcs`), not by `num` itself: the final record may overshoot
the capacity by up to one delivery per registered source. -/
theorem c4_drain_bounds (srcs : Nat) (num : Int) (q : List OutElem) :
    (num ≤ 0 → outputRequests srcs num q = (0, q, [])) ∧
    (0 < num → ((outputRequests srcs num q).1 : Int) < num + srcs) := by
  constructor
  · intro h
    simp [outputRequests, h]
  · intro h
    have hne : ¬ num ≤ 0 := by omega
    simp only [outputRequests, if_neg hne]
    exact drainGo_count_lt srcs num q 0 [] (by exact_mod_cast h)

/-- C4 witness: the amended bounds at a concrete queue and capacity. -/
theorem c4_drain_bounds_witness :
    ((1 : Int) ≤ 0 → outputRequests 2 1 [OutElem.resolved ⟨"a", "d", [], "t", "s"⟩]
        = (0, [OutElem.resolved ⟨"a", "d", [], "t", "s"⟩], [])) ∧
    ((0 : Int) < 1 → ((outputRequests 2 1 [OutElem.resolved ⟨"a", "d", [], "t", "s"⟩]).1 : Int)
        < 1 + 2) :=
  c4_drain_bounds 2 1 [OutElem.resolved ⟨"a", "d", [], "t", "s"⟩]

/-! ## Claim C10 -/

/-- C10: with no registered downstream source, `OutputRequests` with any
positive capacity still consumes the whole queue, dispatches nothing,
and returns 0. -/
theorem c10_no_sources_drain (num : Int) (q : List OutElem) (h : 0 < num) :
    outputRequests 0 num q = (0, [], []) := by
  have hne : ¬ num ≤ 0 := by omega
  simp only [outputRequests, if_neg hne]
  exact drainGo_no_sources num q 0 [] (by exact_mod_cast h)

/-- C10 witness: a nonempty queue is fully consumed at capacity 5 with
no source registered. -/
theorem c10_no_sources_drain_witness :
    outputRequests 0 5 [OutElem.other, OutElem.resolved ⟨"a", "d", [], "t", "s"⟩]
      = (0, [], []) :=
  c10_no_sources_drain 5 [OutElem.other, OutElem.resolved ⟨"a", "d", [], "t", "s"⟩]
    (by decide)

/-! ## Lemmas about the subdomain task -/

/-- The counter reply is the stored value plus one (1 when absent). -/
theorem timesQuery_snd (m : String → Option Nat) (s : String) :
    (timesQuery m s).2 = (m s).getD 0 + 1 := by
  simp only [timesQuery]
  cases m s <;> simp

/-- The counter map after a query: the queried name now stores the
reply, every other name is untouched. -/
theorem timesQuery_fst (m : String → Option Nat) (s x : String) :
    (timesQuery m s).1 x = if x = s then some ((m s).getD 0 + 1) else m x := by
  simp only [timesQuery]
  cases m s <;> simp

/-- `checkForSubdomains` enqueues nothing or exactly one
`SubdomainRequest`. -/
theorem checkForSubdomains_queued (isCNAME : String → Bool) (m : String → Option Nat)
    (req : DNSRequest) :
    (checkForSubdomains isCNAME m req).2.queued = [] ∨
    ∃ s, (checkForSubdomains isCNAME m req).2.queued = [OutElem.subreq s] := by
  simp only [checkForSubdomains]
  cases deriveCandidate req.Name req.Domain with
  | none => exact Or.inl rfl
  | some sub =>
    by_cases hc : isCNAME sub
    · simp [hc]
    · simp only [hc, if_false, Bool.false_eq_true]
      exact Or.inr ⟨_, rfl⟩

/-! ## Claim C6 -/

/-- C6: subdomain derivation drops exactly the leftmost dot-separated
label, and a candidate is produced only when the name has at least two
labels and the candidate keeps at least as many labels as the
authoritative domain.  Concretely, for domain `example.com` the name
`a.b.example.com` yields `b.example.com` and the name `example.com`
yields no candidate. -/
theorem c6_subdomain_boundary :
    deriveCandidate "a.b.example.com" "example.com" = some "b.example.com" ∧
    deriveCandidate "example.com" "example.com" = none ∧
    ∀ name domain c, deriveCandidate name domain = some c →
      c = trimSpace (joinDot (splitDot name).tail) ∧
      2 ≤ (splitDot name).length ∧
      (splitDot domain).length ≤ (splitDot name).length - 1 := by
  refine ⟨by decide, by decide, ?_⟩
  intro name domain c h
  simp only [deriveCandidate] at h
  split at h
  · exact absurd h (by simp)
  · split at h
    · exact absurd h (by simp)
    · refine ⟨(Option.some.inj h).symm, by omega, by omega⟩

/-- C6 witness: the general characterization applied to the concrete
name `a.b.example.com` under domain `example.com`. -/
theorem c6_subdomain_boundary_witness :
    "b.example.com" = trimSpace (joinDot (splitDot "a.b.example.com").tail) ∧
    2 ≤ (splitDot "a.b.example.com").length ∧
    (splitDot "example.com").length ≤ (splitDot "a.b.example.com").length - 1 :=
  c6_subdomain_boundary.2.2 "a.b.example.com" "example.com" "b.example.com" (by decide)

/-! ## Claim C5 -/

/-- C5: whenever `checkForSubdomains` emits a `SubdomainRequest`,
exactly one asynchronous resubmission to the pipeline root is triggered
when the candidate differs from the record's root domain and its
occurrence count equals 1; when the count differs from 1 or the
candidate equals the root domain, no resubmission occurs. -/
theorem c5_first_occurrence_resubmission (isCNAME : String → Bool)
    (m : String → Option Nat) (req : DNSRequest) (s : SubdomainRequest)
    (hs : OutElem.subreq s ∈ (checkForSubdomains isCNAME m req).2.queued) :
    (s.Name ≠ req.Domain ∧ s.Times = 1 →
      (checkForSubdomains isCNAME m req).2.resub = [s]) ∧
    (s.Name = req.Domain ∨ s.Times ≠ 1 →
      (checkForSubdomains isCNAME m req).2.resub = []) := by
  simp only [checkForSubdomains] at hs ⊢
  cases hd : deriveCandidate req.Name req.Domain with
  | none =>
    rw [hd] at hs
    simp at hs
  | some sub =>
    rw [hd] at hs
    by_cases hc : isCNAME sub
    · simp [hc] at hs
    · simp only [hc, Bool.false_eq_true, if_false, List.mem_singleton] at hs ⊢
      cases hs
      constructor
      · intro hcond
        rw [if_pos hcond]
      · intro hcond
        rw [if_neg]
        simp only [ne_eq, not_and]
        intro h1
        rcases hcond with h | h
        · exact absurd h h1
        · exact h

/-- C5 witness: the first derivation of `b.example.com` (count 1,
distinct from the domain) triggers exactly one resubmission. -/
theorem c5_first_occurrence_resubmission_witness :
    ((⟨"b.example.com", "example.com", "dns", "s", 1⟩ : SubdomainRequest).Name ≠ "example.com" ∧
        (⟨"b.example.com", "example.com", "dns", "s", 1⟩ : SubdomainRequest).Times = 1 →
      (checkForSubdomains (fun _ => false) (fun _ => none)
          ⟨"a.b.example.com", "example.com", [], "dns", "s"⟩).2.resub
        = [⟨"b.example.com", "example.com", "dns", "s", 1⟩]) ∧
    ((⟨"b.example.com", "example.com", "dns", "s", 1⟩ : SubdomainRequest).Name = "example.com" ∨
        (⟨"b.example.com", "example.com", "dns", "s", 1⟩ : SubdomainRequest).Times ≠ 1 →
      (checkForSubdomains (fun _ => false) (fun _ => none)
          ⟨"a.b.example.com", "example.com", [], "dns", "s"⟩).2.resub = []) :=
  c5_first_occurrence_resubmission (fun _ => false) (fun _ => none)
    ⟨"a.b.example.com", "example.com", [], "dns", "s"⟩
    ⟨"b.example.com", "example.com", "dns", "s", 1⟩ (by decide)

/-! ## Claim C2 -/

/-- C2 counterexample: the in-scope record `example.com` (equal to its
domain) enqueues a `ResolvedRequest` downstream but no
`SubdomainRequest` — refuting the claimed if-and-only-if pairing. -/
theorem c2_counterexample :
    (subdomainProcess (fun _ => true) (fun _ => false) (fun _ => none)
        (some ⟨"example.com", "example.com", [], "dns", "s"⟩)).2.queued
      = [OutElem.resolved ⟨"example.com", "example.com", [], "dns", "s"⟩] ∧
    ((subdomainProcess (fun _ => true) (fun _ => false) (fun _ => none)
        (some ⟨"example.com", "example.com", [], "dns", "s"⟩)).2.queued.any
      OutElem.isRes) = true ∧
    ((subdomainProcess (fun _ => true) (fun _ => false) (fun _ => none)
        (some ⟨"example.com", "example.com", [], "dns", "s"⟩)).2.queued.any
      OutElem.isSub) = false := by
  decide

/-- C2 (amended): per input record, `subdomainTask.Process` enqueues
either nothing (record dropped), or exactly one `ResolvedRequest`, or
exactly one `ResolvedRequest` followed by exactly one
`SubdomainRequest`.  A `SubdomainRequest` never goes downstream without
its `ResolvedRequest`, but a `ResolvedRequest` is enqueued even when no
subdomain candidate is derived. -/
theorem c2_resolved_subdomain_pairing (inScope : String → Bool) (isCNAME : String → Bool)
    (m : String → Option Nat) (oreq : Option DNSRequest) :
    (subdomainProcess inScope isCNAME m oreq).2.queued = [] ∨
    (∃ rr, (subdomainProcess inScope isCNAME m oreq).2.queued = [OutElem.resolved rr]) ∨
    (∃ rr s, (subdomainProcess inScope isCNAME m oreq).2.queued
        = [OutElem.resolved rr, OutElem.subreq s]) := by
  cases oreq with
  | none => exact Or.inl rfl
  | some req =>
    simp only [subdomainProcess]
    by_cases hsc : inScope req.Name
    · simp only [hsc, not_true_eq_false, Bool.false_eq_true, if_false]
      split
      · exact Or.inl rfl
      · rcases checkForSubdomains_queued isCNAME m req with h | ⟨s, h⟩
        · exact Or.inr (Or.inl ⟨_, by rw [h]⟩)
        · exact Or.inr (Or.inr ⟨_, s, by rw [h]⟩)
    · simp [hsc]

/-! ## Lemmas about counter runs -/

/-- Characterization of a counter run: the reply to the `i`-th request
is the number of earlier requests for the same name, plus the initially
stored value, plus one. -/
theorem runTimes_getElem? (qs : List String) :
    ∀ (m : String → Option Nat) (i : Nat) (hi : i < qs.length),
      (runTimes m qs).2[i]? = some ((qs.take i).count qs[i] + (m qs[i]).getD 0 + 1) := by
  induction qs with
  | nil =>
    intro m i hi
    simp at hi
  | cons s rest ih =>
    intro m i hi
    match i with
    | 0 =>
      simp only [runTimes, List.getElem?_cons_zero, List.take_zero, List.count_nil,
        List.getElem_cons_zero, timesQuery_snd]
      rw [Nat.zero_add]
    | i + 1 =>
      have hi' : i < rest.length := by simpa using hi
      simp only [runTimes, List.getElem?_cons_succ, List.getElem_cons_succ]
      rw [ih (timesQuery m s).1 i hi', timesQuery_fst]
      by_cases he : rest[i] = s
      · rw [if_pos he]
        simp [List.take_succ_cons, List.count_cons, he]
        omega
      · rw [if_neg he]
        have hne : ¬ (s == rest[i]) = true := by
          simp only [beq_iff_eq]
          exact fun hx => he hx.symm
        simp [List.take_succ_cons, List.count_cons, hne]

/-- Characterization of a counter run started from the empty map. -/
theorem runTimes_fromEmpty (qs : List String) (i : Nat) (hi : i < qs.length) :
    (runTimes (fun _ => none) qs).2[i]? = some ((qs.take i).count qs[i] + 1) := by
  simpa using runTimes_getElem? qs (fun _ => none) i hi

/-- Taking one more element adds exactly one occurrence of that
element to the occurrence count. -/
theorem count_take_succ_eq (qs : List String) (i : Nat) (hi : i < qs.length) :
    (qs.take (i + 1)).count qs[i] = (qs.take i).count qs[i] + 1 := by
  rw [List.take_succ, List.getElem?_eq_getElem hi, List.count_append]
  simp

/-- Occurrence counts over prefixes grow with the prefix. -/
theorem count_take_le (a : String) (qs : List String) (i j : Nat) (hij : i ≤ j) :
    (qs.take i).count a ≤ (qs.take j).count a := by
  have hj : j = i + (j - i) := by omega
  rw [hj, List.take_add, List.count_append]
  omega

/-- If no request between positions `i` and `j` is for the name at
position `i`, the occurrence count grows by exactly one between the two
prefixes. -/
theorem count_take_between (qs : List String) (i j : Nat) (hi : i < qs.length)
    (hij : i < j) (hbet : ∀ k, (hk : k < qs.length) → i < k → k < j → qs[k] ≠ qs[i]) :
    (qs.take j).count qs[i] = (qs.take i).count qs[i] + 1 := by
  have hj' : j = (i + 1) + (j - (i + 1)) := by omega
  rw [hj', List.take_add, List.count_append, count_take_succ_eq qs i hi]
  have hmid : (List.take (j - (i + 1)) (List.drop (i + 1) qs)).count qs[i] = 0 := by
    rw [List.count_eq_zero]
    intro hmem
    rw [List.mem_take_iff_getElem] at hmem
    obtain ⟨t, ht, hx⟩ := hmem
    rw [lt_inf_iff, List.length_drop] at ht
    rw [List.getElem_drop] at hx
    exact hbet (i + 1 + t) (by omega) (by omega) (by omega) hx
  omega

/-! ## Claim C7 -/

/-- C7: counter monotonicity.  For a run of `count-for` requests served
in order from the empty table: (1) the reply at position `i` is one
more than the number of earlier requests for the same name; hence (2) a
first request for a name gets reply 1; (3) the next request for the
same name gets exactly the previous reply plus 1; and (4) no two
requests for the same name ever observe the same count. -/
theorem c7_counter_monotonic (qs : List String) :
    (∀ i, (hi : i < qs.length) →
        (runTimes (fun _ => none) qs).2[i]? = some ((qs.take i).count qs[i] + 1)) ∧
    (∀ i, (hi : i < qs.length) → (∀ k, (hk : k < qs.length) → k < i → qs[k] ≠ qs[i]) →
        (runTimes (fun _ => none) qs).2[i]? = some 1) ∧
    (∀ i j, (hi : i < qs.length) → (hj : j < qs.length) → i < j → qs[i] = qs[j] →
        (∀ k, (hk : k < qs.length) → i < k → k < j → qs[k] ≠ qs[i]) →
        (runTimes (fun _ => none) qs).2[j]?
          = ((runTimes (fun _ => none) qs).2[i]?).map (· + 1)) ∧
    (∀ i j, (hi : i < qs.length) → (hj : j < qs.length) → i < j → qs[i] = qs[j] →
        (runTimes (fun _ => none) qs).2[i]? ≠ (runTimes (fun _ => none) qs).2[j]?) := by
  refine ⟨runTimes_fromEmpty qs, ?_, ?_, ?_⟩
  · intro i hi hfirst
    rw [runTimes_fromEmpty qs i hi]
    have hz : (qs.take i).count qs[i] = 0 := by
      rw [List.count_eq_zero]
      intro hmem
      rw [List.mem_take_iff_getElem] at hmem
      obtain ⟨k, hk, hx⟩ := hmem
      rw [lt_inf_iff] at hk
      exact hfirst k hk.2 hk.1 hx
    rw [hz]
  · intro i j hi hj hij heq hbet
    rw [runTimes_fromEmpty qs i hi, runTimes_fromEmpty qs j hj, ← heq,
      count_take_between qs i j hi hij hbet]
    rfl
  · intro i j hi hj hij heq
    rw [runTimes_fromEmpty qs i hi, runTimes_fromEmpty qs j hj, ← heq]
    intro hcontra
    have hcnt := Option.some.inj hcontra
    have hle : (qs.take (i + 1)).count qs[i] ≤ (qs.take j).count qs[i] :=
      count_take_le qs[i] qs (i + 1) j (by omega)
    rw [count_take_succ_eq qs i hi] at hle
    omega

/-- C7 witness: in the run `["a.com", "b.com", "a.com"]` the second
request for `a.com` (position 2) replies exactly one more than the
first (position 0). -/
theorem c7_counter_monotonic_witness :
    (runTimes (fun _ => none) ["a.com", "b.com", "a.com"]).2[2]?
      = ((runTimes (fun _ => none) ["a.com", "b.com", "a.com"]).2[0]?).map (· + 1) :=
  (c7_counter_monotonic ["a.com", "b.com", "a.com"]).2.2.1 0 2 (by decide) (by decide)
    (by decide) (by decide) (by decide)

/-! ## Claim C8 -/

/-- C8: one timer tick of the reconciliation loop consumes exactly the
maximal prefix of `pending` whose entries are at least the grace period
old — (1) the consumed entries are that prefix, (2) the buffer keeps
exactly the first still-young entry and everything after it, (3) the
graph insertions are the consumed entries whose node lookup succeeds,
in arrival order, and (4) every inserted entry is at least
`gracePeriod` old at scan time (never inserted before its timestamp
plus the grace period). -/
theorem c8_reconciliation_tick (hasNode : String → Bool) (now : Nat)
    (pending : List Altsource) :
    pending.take (scanConsume now pending)
        = pending.takeWhile (fun a => decide (a.Timestamp + gracePeriod ≤ now)) ∧
    (scanTick hasNode now pending).2
        = pending.dropWhile (fun a => decide (a.Timestamp + gracePeriod ≤ now)) ∧
    (scanTick hasNode now pending).1
        = (pending.takeWhile (fun a => decide (a.Timestamp + gracePeriod ≤ now))).filter
            (fun a => hasNode a.Name) ∧
    (∀ a, a ∈ (scanTick hasNode now pending).1 →
        a.Timestamp + gracePeriod ≤ now ∧ hasNode a.Name = true) := by
  induction pending with
  | nil =>
    refine ⟨rfl, rfl, rfl, ?_⟩
    intro a ha
    simp [scanTick, scanInserts] at ha
  | cons b rest ih =>
    by_cases hb : now < b.Timestamp + gracePeriod
    · have hdec : ¬ (decide (b.Timestamp + gracePeriod ≤ now)) = true := by
        simp
        omega
      refine ⟨?_, ?_, ?_, ?_⟩
      · simp [scanConsume, hb, List.takeWhile_cons, hdec]
      · simp [scanTick, scanConsume, hb, List.dropWhile_cons, hdec]
      · simp [scanTick, scanInserts, hb, List.takeWhile_cons, hdec]
      · intro a ha
        simp [scanTick, scanInserts, hb] at ha
    · have hdec : (decide (b.Timestamp + gracePeriod ≤ now)) = true := by
        simp
        omega
      obtain ⟨ih1, ih2, ih3, ih4⟩ := ih
      refine ⟨?_, ?_, ?_, ?_⟩
      · simp only [scanConsume, if_neg hb, List.take_succ_cons, List.takeWhile_cons, hdec,
          if_pos]
        rw [ih1]
      · simp only [scanTick, scanConsume, if_neg hb, List.drop_succ_cons,
          List.dropWhile_cons, hdec, if_pos]
        simpa [scanTick] using ih2
      · simp only [scanTick, scanInserts, if_neg hb, List.takeWhile_cons, hdec, if_pos,
          List.filter_cons]
        by_cases hn : hasNode b.Name
        · simp only [hn, if_pos, List.singleton_append]
          rw [show scanInserts hasNode now rest = (scanTick hasNode now rest).1 from rfl, ih3]
        · simp only [hn, Bool.false_eq_true, if_false, List.nil_append]
          rw [show scanInserts hasNode now rest = (scanTick hasNode now rest).1 from rfl, ih3]
      · intro a ha
        simp only [scanTick, scanInserts, if_neg hb, List.mem_append] at ha
        rcases ha with ha | ha
        · by_cases hn : hasNode b.Name
          · simp only [hn, if_pos, List.mem_singleton] at ha
            subst ha
            exact ⟨by omega, hn⟩
          · simp [hn] at ha
        · exact ih4 a ha

/-- C8 witness: a two-entry buffer where only the first entry is past
its grace period — the tick inserts it (its node exists) and keeps the
second entry buffered. -/
theorem c8_reconciliation_tick_witness :
    [(⟨"a", "s", "t", 100⟩ : Altsource), ⟨"b", "s", "t", 900⟩].take
        (scanConsume 1000 [⟨"a", "s", "t", 100⟩, ⟨"b", "s", "t", 900⟩])
      = [(⟨"a", "s", "t", 100⟩ : Altsource), ⟨"b", "s", "t", 900⟩].takeWhile
          (fun a => decide (a.Timestamp + gracePeriod ≤ 1000)) ∧
    (⟨"a", "s", "t", 100⟩ : Altsource).Timestamp + gracePeriod ≤ 1000 ∧
      (fun _ => true) (⟨"a", "s", "t", 100⟩ : Altsource).Name = true :=
  ⟨(c8_reconciliation_tick (fun _ => true) 1000
      [⟨"a", "s", "t", 100⟩, ⟨"b", "s", "t", 900⟩]).1,
   (c8_reconciliation_tick (fun _ => true) 1000
      [⟨"a", "s", "t", 100⟩, ⟨"b", "s", "t", 900⟩]).2.2.2 ⟨"a", "s", "t", 100⟩ (by decide)⟩

/-! ## Lemmas about the deduplication filter

The filter keys are `Name + strconv.FormatBool(trusted)`.  The suffixes
`"true"` and `"false"` can never be confused (their last-but-one
characters differ), so a key determines its (name, trust-bit) pair. -/

/-- A trusted-bit key never equals an untrusted-bit key, whatever the
names. -/
theorem boolKey_true_ne_false (N M : String) : N ++ boolKey true ≠ M ++ boolKey false := by
  intro h
  have hd : N.data ++ ("true" : String).data = M.data ++ ("false" : String).data := by
    simpa [boolKey, String.data_append] using congrArg String.data h
  have hr := congrArg List.reverse hd
  simp [List.reverse_append] at hr

/-- Keys with the same trust bit determine the name. -/
theorem key_append_inj (N M : String) (b : Bool) (h : N ++ boolKey b = M ++ boolKey b) :
    N = M := by
  have hd : N.data ++ (boolKey b).data = M.data ++ (boolKey b).data := by
    simpa [String.data_append] using congrArg String.data h
  exact String.ext (List.append_cancel_right hd)

/-- Keys for distinct (name, trust-bit) pairs are distinct strings. -/
theorem key_pair_ne (N M : String) (b b' : Bool) (hne : ¬ (N = M ∧ b = b')) :
    N ++ boolKey b ≠ M ++ boolKey b' := by
  intro h
  cases b <;> cases b'
  · exact hne ⟨key_append_inj N M false h, rfl⟩
  · exact boolKey_true_ne_false M N h.symm
  · exact boolKey_true_ne_false N M h
  · exact hne ⟨key_append_inj N M true h, rfl⟩

/-- `checkFilter` on a valid record with no reset pending: the three
remaining branches, written over the unchanged incoming state. -/
theorem checkFilter_valid_noreset (maxSize : Nat) (valid : DNSRequest → Bool)
    (trustedTag : String → Bool) (st : FilterState) (r : DNSRequest)
    (hv : valid r = true) (hcnt : st.count < maxSize) :
    checkFilter maxSize valid trustedTag st r =
      (if ¬ trustedTag r.Tag ∧ (r.Name ++ boolKey true) ∈ st.filter then
        ({ st with dupQ := st.dupQ ++ [r] }, none)
      else if (r.Name ++ boolKey (trustedTag r.Tag)) ∈ st.filter then
        ({ st with dupQ := st.dupQ ++ [r] }, none)
      else
        ({ st with filter := (r.Name ++ boolKey (trustedTag r.Tag)) :: st.filter,
                   count := st.count + 1 }, some r)) := by
  have h1 : ¬ ¬ valid r = true := by simp [hv]
  have h2 : ¬ maxSize ≤ st.count := by omega
  simp only [checkFilter, if_neg h1, if_neg h2]

/-- `checkFilter` on an invalid record: dropped with no side effect. -/
theorem checkFilter_invalid (maxSize : Nat) (valid : DNSRequest → Bool)
    (trustedTag : String → Bool) (st : FilterState) (r : DNSRequest)
    (hv : ¬ valid r = true) :
    checkFilter maxSize valid trustedTag st r = (st, none) := by
  simp only [checkFilter, if_pos hv]

/-- Without a reset, a step of `checkFilter` never removes a key from
the filter. -/
theorem checkFilter_key_mono (maxSize : Nat) (valid : DNSRequest → Bool)
    (trustedTag : String → Bool) (st : FilterState) (r : DNSRequest) (K : String)
    (hcnt : st.count < maxSize) (hK : K ∈ st.filter) :
    K ∈ (checkFilter maxSize valid trustedTag st r).1.filter := by
  by_cases hv : valid r = true
  · rw [checkFilter_valid_noreset maxSize valid trustedTag st r hv hcnt]
    split
    · exact hK
    · split
      · exact hK
      · exact List.mem_cons_of_mem _ hK
  · rw [checkFilter_invalid maxSize valid trustedTag st r hv]
    exact hK

/-- A step of `checkFilter` never removes a record from the
reconciliation queue (a reset clears only the filter and counter). -/
theorem checkFilter_dupQ_mono (maxSize : Nat) (valid : DNSRequest → Bool)
    (trustedTag : String → Bool) (st : FilterState) (r : DNSRequest) (q : DNSRequest)
    (hq : q ∈ st.dupQ) :
    q ∈ (checkFilter maxSize valid trustedTag st r).1.dupQ := by
  by_cases hv : valid r = true
  · have hv' : ¬ ¬ valid r = true := by simp [hv]
    by_cases hreset : maxSize ≤ st.count
    · simp only [checkFilter, if_neg hv', if_pos hreset]
      split
      · exact List.mem_append_left _ hq
      · split
        · exact List.mem_append_left _ hq
        · exact hq
    · simp only [checkFilter, if_neg hv', if_neg hreset]
      split
      · exact List.mem_append_left _ hq
      · split
        · exact List.mem_append_left _ hq
        · exact hq
  · rw [checkFilter_invalid maxSize valid trustedTag st r hv]
    exact hq

/-- A valid untrusted record whose name already carries the trusted-tier
key is dropped and appended to the reconciliation queue. -/
theorem checkFilter_untrusted_dup (maxSize : Nat) (valid : DNSRequest → Bool)
    (trustedTag : String → Bool) (st : FilterState) (r : DNSRequest)
    (hcnt : st.count < maxSize) (hv : valid r = true) (ht : trustedTag r.Tag = false)
    (hK : (r.Name ++ boolKey true) ∈ st.filter) :
    checkFilter maxSize valid trustedTag st r = ({ st with dupQ := st.dupQ ++ [r] }, none) := by
  rw [checkFilter_valid_noreset maxSize valid trustedTag st r hv hcnt]
  rw [if_pos ⟨by simp [ht], hK⟩]

/-- A valid trusted record whose trusted-tier key is absent is accepted,
regardless of whether the untrusted-tier key is present. -/
theorem checkFilter_trusted_accept (maxSize : Nat) (valid : DNSRequest → Bool)
    (trustedTag : String → Bool) (st : FilterState) (r : DNSRequest)
    (hcnt : st.count < maxSize) (hv : valid r = true) (ht : trustedTag r.Tag = true)
    (hK : ¬ (r.Name ++ boolKey true) ∈ st.filter) :
    checkFilter maxSize valid trustedTag st r =
      ({ st with filter := (r.Name ++ boolKey true) :: st.filter,
                 count := st.count + 1 }, some r) := by
  rw [checkFilter_valid_noreset maxSize valid trustedTag st r hv hcnt]
  rw [if_neg (by simp [ht]), ht, if_neg hK]

/-- Once the trusted-tier key of a name is in the filter, every valid
record with that name — from either tier — is dropped and appended to
the reconciliation queue. -/
theorem checkFilter_trueKey_dup (maxSize : Nat) (valid : DNSRequest → Bool)
    (trustedTag : String → Bool) (st : FilterState) (r : DNSRequest)
    (hcnt : st.count < maxSize) (hv : valid r = true)
    (hT : (r.Name ++ boolKey true) ∈ st.filter) :
    checkFilter maxSize valid trustedTag st r = ({ st with dupQ := st.dupQ ++ [r] }, none) := by
  rw [checkFilter_valid_noreset maxSize valid trustedTag st r hv hcnt]
  cases ht : trustedTag r.Tag
  · rw [if_pos ⟨by simp [ht], hT⟩]
  · rw [if_neg (by simp [ht]), if_pos hT]

/-- A name's key count is at most 2 (one key per trust bit). -/
theorem numBits_le_two (st : FilterState) (N : String) : numBits st N ≤ 2 := by
  simp only [numBits]
  split <;> split <;> omega

/-- Inserting a name's own missing trust-bit key raises its key count by
exactly one. -/
theorem numBits_filter_cons_own (N : String) (tb : Bool) (f : List String)
    (c c' : Nat) (q q' : List DNSRequest) (habs : (N ++ boolKey tb) ∉ f) :
    numBits { filter := (N ++ boolKey tb) :: f, count := c, dupQ := q } N
      = numBits { filter := f, count := c', dupQ := q' } N + 1 := by
  cases tb
  · have hne : (N ++ boolKey true) ≠ (N ++ boolKey false) := boolKey_true_ne_false N N
    by_cases hmem : (N ++ boolKey true) ∈ f <;>
      simp [numBits, List.mem_cons, habs, hne, hmem]
  · have hne : (N ++ boolKey false) ≠ (N ++ boolKey true) :=
      fun h => boolKey_true_ne_false N N h.symm
    by_cases hmem : (N ++ boolKey false) ∈ f <;>
      simp [numBits, List.mem_cons, habs, hne, hmem]

/-- Inserting a key of a *different* name leaves this name's key count
unchanged. -/
theorem numBits_filter_cons_other (N M : String) (tb : Bool) (f : List String)
    (c c' : Nat) (q q' : List DNSRequest) (hne : M ≠ N) :
    numBits { filter := (M ++ boolKey tb) :: f, count := c, dupQ := q } N
      = numBits { filter := f, count := c', dupQ := q' } N := by
  have h1 : N ++ boolKey false ≠ M ++ boolKey tb :=
    key_pair_ne N M false tb (fun h => hne h.1.symm)
  have h2 : N ++ boolKey true ≠ M ++ boolKey tb :=
    key_pair_ne N M true tb (fun h => hne h.1.symm)
  simp [numBits, List.mem_cons, h1, h2]

/-- Without a reset, one `checkFilter` step raises a name's key count by
one exactly when it accepts a record with that name, and keeps it
unchanged otherwise. -/
theorem checkFilter_numBits_step (maxSize : Nat) (valid : DNSRequest → Bool)
    (trustedTag : String → Bool) (st : FilterState) (r : DNSRequest) (N : String)
    (hcnt : st.count < maxSize) :
    numBits (checkFilter maxSize valid trustedTag st r).1 N
      = numBits st N
        + (if isAcceptOf N (checkFilter maxSize valid trustedTag st r).2 = true
            then 1 else 0) := by
  by_cases hv : valid r = true
  · rw [checkFilter_valid_noreset maxSize valid trustedTag st r hv hcnt]
    split
    · simp [numBits, isAcceptOf]
    · split
      · simp [numBits, isAcceptOf]
      · rename_i hc1 hc2
        by_cases hN : r.Name = N
        · subst hN
          have hacc : isAcceptOf r.Name (some r) = true := by simp [isAcceptOf]
          simp only [hacc, if_pos]
          exact numBits_filter_cons_own r.Name (trustedTag r.Tag) st.filter
            _ st.count _ st.dupQ hc2
        · have hacc : isAcceptOf N (some r) = false := by simp [isAcceptOf, hN]
          simp only [hacc, Bool.false_eq_true, if_false, Nat.add_zero]
          exact numBits_filter_cons_other N r.Name (trustedTag r.Tag) st.filter
            _ st.count _ st.dupQ hN
  · rw [checkFilter_invalid maxSize valid trustedTag st r hv]
    simp [isAcceptOf]

/-- Over a run without resets, a name's final key count is its initial
key count plus the number of records with that name accepted during the
run. -/
theorem runFilter_numBits (maxSize : Nat) (valid : DNSRequest → Bool)
    (trustedTag : String → Bool) :
    ∀ (reqs : List DNSRequest) (st : FilterState),
      (∀ s ∈ filterTrace maxSize valid trustedTag st reqs, s.count < maxSize) →
      ∀ N, numBits (runFilter maxSize valid trustedTag st reqs).1 N
        = numBits st N + acceptCount N (runFilter maxSize valid trustedTag st reqs).2 := by
  intro reqs
  induction reqs with
  | nil =>
    intro st htr N
    simp [runFilter, acceptCount]
  | cons r rs ih =>
    intro st htr N
    have hst : st.count < maxSize := htr st (by simp [filterTrace])
    have htr' : ∀ s ∈ filterTrace maxSize valid trustedTag
        (checkFilter maxSize valid trustedTag st r).1 rs, s.count < maxSize := by
      intro s hs
      exact htr s (by simp [filterTrace, hs])
    simp only [runFilter, acceptCount, List.countP_cons]
    have ih' := ih _ htr' N
    simp only [acceptCount] at ih'
    rw [ih', checkFilter_numBits_step maxSize valid trustedTag st r N hst]
    omega

/-- Over a run without resets, filter keys are never removed. -/
theorem runFilter_key_mono (maxSize : Nat) (valid : DNSRequest → Bool)
    (trustedTag : String → Bool) :
    ∀ (reqs : List DNSRequest) (st : FilterState) (K : String),
      (∀ s ∈ filterTrace maxSize valid trustedTag st reqs, s.count < maxSize) →
      K ∈ st.filter → K ∈ (runFilter maxSize valid trustedTag st reqs).1.filter := by
  intro reqs
  induction reqs with
  | nil =>
    intro st K htr hK
    simpa [runFilter] using hK
  | cons r rs ih =>
    intro st K htr hK
    have hst : st.count < maxSize := htr st (by simp [filterTrace])
    simp only [runFilter]
    exact ih _ K (fun s hs => htr s (by simp [filterTrace, hs]))
      (checkFilter_key_mono maxSize valid trustedTag st r K hst hK)

/-- Records on the reconciliation queue stay there for the rest of the
run. -/
theorem runFilter_dupQ_mono (maxSize : Nat) (valid : DNSRequest → Bool)
    (trustedTag : String → Bool) :
    ∀ (reqs : List DNSRequest) (st : FilterState) (q : DNSRequest),
      q ∈ st.dupQ → q ∈ (runFilter maxSize valid trustedTag st reqs).1.dupQ := by
  intro reqs
  induction reqs with
  | nil =>
    intro st q hq
    simpa [runFilter] using hq
  | cons r rs ih =>
    intro st q hq
    simp only [runFilter]
    exact ih _ q (checkFilter_dupQ_mono maxSize valid trustedTag st r q hq)

/-- `checkFilter` on a valid record when the reset threshold has been
reached: the filter is swapped for an empty one, so the record is
always accepted. -/
theorem checkFilter_valid_reset (maxSize : Nat) (valid : DNSRequest → Bool)
    (trustedTag : String → Bool) (st : FilterState) (r : DNSRequest)
    (hv : valid r = true) (hcnt : maxSize ≤ st.count) :
    checkFilter maxSize valid trustedTag st r =
      ({ filter := [r.Name ++ boolKey (trustedTag r.Tag)], count := 1, dupQ := st.dupQ },
       some r) := by
  have hv' : ¬ ¬ valid r = true := by simp [hv]
  simp only [checkFilter, if_neg hv', if_pos hcnt]
  rw [if_neg (by simp), if_neg (by simp)]

/-! ## Claim C3 -/

/-- C3 counterexample: with the configured maximum set to 1, a trusted
record for name `n` is accepted, the next call resets the filter
(forgetting the trusted key), and an untrusted record for the same
name `n` is then accepted again — refuting "never accepted again". -/
theorem c3_counterexample :
    (runFilter 1 (fun _ => true) (fun t => t == "dns") ⟨[], 0, []⟩
        [⟨"n", "d", [], "dns", "s1"⟩, ⟨"n", "d", [], "scrape", "s2"⟩]).2
      = [some ⟨"n", "d", [], "dns", "s1"⟩, some ⟨"n", "d", [], "scrape", "s2"⟩] ∧
    (fun t => t == "dns") (⟨"n", "d", [], "dns", "s1"⟩ : DNSRequest).Tag = true ∧
    (fun t => t == "dns") (⟨"n", "d", [], "scrape", "s2"⟩ : DNSRequest).Tag = false := by
  decide

/-- C3 (amended): (1) accepting a valid trusted record places the
name's trusted-tier key in the filter; (2) while that key is present
and as long as no filter reset intervenes, every subsequent valid
untrusted record with that name is dropped (`none`) and appended to the
reconciliation queue — it is never accepted before the next reset. -/
theorem c3_trust_monotonicity (maxSize : Nat) (valid : DNSRequest → Bool)
    (trustedTag : String → Bool) :
    (∀ st r, trustedTag r.Tag = true →
        (checkFilter maxSize valid trustedTag st r).2 = some r →
        hasKey (checkFilter maxSize valid trustedTag st r).1 r.Name true) ∧
    (∀ st reqs N, hasKey st N true →
        (∀ s ∈ filterTrace maxSize valid trustedTag st reqs, s.count < maxSize) →
        ∀ i, (hi : i < reqs.length) → valid reqs[i] = true →
          trustedTag reqs[i].Tag = false → reqs[i].Name = N →
          (runFilter maxSize valid trustedTag st reqs).2[i]? = some none ∧
          reqs[i] ∈ (runFilter maxSize valid trustedTag st reqs).1.dupQ) := by
  constructor
  · intro st r htag hacc
    by_cases hv : valid r = true
    · by_cases hreset : maxSize ≤ st.count
      · rw [checkFilter_valid_reset maxSize valid trustedTag st r hv hreset]
        simp [hasKey, htag]
      · have hnr : st.count < maxSize := by omega
        by_cases hK : (r.Name ++ boolKey true) ∈ st.filter
        · rw [checkFilter_trueKey_dup maxSize valid trustedTag st r hnr hv hK] at hacc
          simp at hacc
        · rw [checkFilter_trusted_accept maxSize valid trustedTag st r hnr hv htag hK]
          simp [hasKey]
    · rw [checkFilter_invalid maxSize valid trustedTag st r hv] at hacc
      simp at hacc
  · intro st reqs N
    induction reqs generalizing st with
    | nil =>
      intro hkey htr i hi
      simp at hi
    | cons r rs ih =>
      intro hkey htr i hi hv ht hname
      have hst : st.count < maxSize := htr st (by simp [filterTrace])
      have htr' : ∀ s ∈ filterTrace maxSize valid trustedTag
          (checkFilter maxSize valid trustedTag st r).1 rs, s.count < maxSize := by
        intro s hs
        apply htr
        simp only [filterTrace, List.mem_cons]
        exact Or.inr hs
      match i with
      | 0 =>
        have hv0 : valid r = true := by simpa using hv
        have ht0 : trustedTag r.Tag = false := by simpa using ht
        have hn0 : r.Name = N := by simpa using hname
        have hkey' : (r.Name ++ boolKey true) ∈ st.filter := by
          rw [hn0]
          exact hkey
        have hstep := checkFilter_untrusted_dup maxSize valid trustedTag st r hst hv0 ht0 hkey'
        constructor
        · simp [runFilter, hstep]
        · simp only [runFilter, hstep, List.getElem_cons_zero]
          exact runFilter_dupQ_mono maxSize valid trustedTag rs _ r (by simp)
      | i + 1 =>
        have hi' : i < rs.length := by simpa using hi
        have hkey2 : hasKey (checkFilter maxSize valid trustedTag st r).1 N true :=
          checkFilter_key_mono maxSize valid trustedTag st r _ hst hkey
        have hv' : valid rs[i] = true := by simpa using hv
        have ht' : trustedTag rs[i].Tag = false := by simpa using ht
        have hn' : rs[i].Name = N := by simpa using hname
        have hrec := ih _ hkey2 htr' i hi' hv' ht' hn'
        constructor
        · simp only [runFilter, List.getElem?_cons_succ]
          exact hrec.1
        · simp only [runFilter, List.getElem_cons_succ]
          exact hrec.2

/-- C3 witness: with the trusted key for `n` in the filter and no reset
pending, the untrusted record for `n` is dropped and lands on the
reconciliation queue. -/
theorem c3_trust_monotonicity_witness :
    (runFilter 100 (fun _ => true) (fun t => t == "dns")
        ⟨["n" ++ boolKey true], 1, []⟩ [⟨"n", "d", [], "scrape", "s2"⟩]).2[0]?
      = some none ∧
    (⟨"n", "d", [], "scrape", "s2"⟩ : DNSRequest)
      ∈ (runFilter 100 (fun _ => true) (fun t => t == "dns")
          ⟨["n" ++ boolKey true], 1, []⟩ [⟨"n", "d", [], "scrape", "s2"⟩]).1.dupQ :=
  (c3_trust_monotonicity 100 (fun _ => true) (fun t => t == "dns")).2
    ⟨["n" ++ boolKey true], 1, []⟩ [⟨"n", "d", [], "scrape", "s2"⟩] "n"
    (by decide) (by decide) 0 (by decide) (by decide) (by decide) (by decide)

/-! ## Claim C9 -/

/-- C9: between two filter resets (no state in the run reaches the
reset threshold), (1) a valid trusted record is accepted even when the
name's untrusted-tier key is already present — an earlier untrusted
admission does not block it; (2) once both trust-bit keys of a name are
present, every further valid record with that name is dropped and
appended to the reconciliation queue; and (3) at most two records of
any one name are accepted in total (counting the keys already
present). -/
theorem c9_two_admissions_per_name (maxSize : Nat) (valid : DNSRequest → Bool)
    (trustedTag : String → Bool) :
    (∀ st r, st.count < maxSize → valid r = true → trustedTag r.Tag = true →
        hasKey st r.Name false → ¬ hasKey st r.Name true →
        (checkFilter maxSize valid trustedTag st r).2 = some r) ∧
    (∀ st r, st.count < maxSize → valid r = true →
        hasKey st r.Name true → hasKey st r.Name false →
        (checkFilter maxSize valid trustedTag st r).2 = none ∧
        r ∈ (checkFilter maxSize valid trustedTag st r).1.dupQ) ∧
    (∀ st reqs N,
        (∀ s ∈ filterTrace maxSize valid trustedTag st reqs, s.count < maxSize) →
        acceptCount N (runFilter maxSize valid trustedTag st reqs).2 + numBits st N ≤ 2) := by
  refine ⟨?_, ?_, ?_⟩
  · intro st r hcnt hv ht _hU hK
    rw [checkFilter_trusted_accept maxSize valid trustedTag st r hcnt hv ht hK]
  · intro st r hcnt hv hT _hF
    rw [checkFilter_trueKey_dup maxSize valid trustedTag st r hcnt hv hT]
    exact ⟨rfl, by simp⟩
  · intro st reqs N htr
    have h1 := runFilter_numBits maxSize valid trustedTag reqs st htr N
    have h2 := numBits_le_two (runFilter maxSize valid trustedTag st reqs).1 N
    omega

/-- C9 witness: from an empty filter, the run
untrusted `n`, trusted `n`, trusted `n`, untrusted `n` (no reset at
maximum 100) accepts at most two records named `n`. -/
theorem c9_two_admissions_per_name_witness :
    acceptCount "n" (runFilter 100 (fun _ => true) (fun t => t == "dns") ⟨[], 0, []⟩
        [⟨"n", "d", [], "scrape", "s1"⟩, ⟨"n", "d", [], "dns", "s2"⟩,
         ⟨"n", "d", [], "dns", "s3"⟩, ⟨"n", "d", [], "scrape", "s4"⟩]).2
      + numBits ⟨[], 0, []⟩ "n" ≤ 2 :=
  (c9_two_admissions_per_name 100 (fun _ => true) (fun t => t == "dns")).2.2
    ⟨[], 0, []⟩
    [⟨"n", "d", [], "scrape", "s1"⟩, ⟨"n", "d", [], "dns", "s2"⟩,
     ⟨"n", "d", [], "dns", "s3"⟩, ⟨"n", "d", [], "scrape", "s4"⟩] "n" (by decide)

end AmassEnum

